import Mathlib

/-!
Verification of the plobin-proto-ocr-reader OCR pipeline.

The Go services are embedded shallowly: floating point confidences become
rationals, machine integers become `Int`/`Nat`, and the external engine
(Tesseract / Surya) is represented by the list of raw boxes it hands to the
Go code.  The block-merging / section / hierarchy core that the design
document describes is not part of the Go sources; it is modelled from the
spec where a claim needs it, and each such definition says so in its doc
comment.
-/

namespace OcrProof

/-- Axis-aligned bounding box `{x, y, width, height}` (GenkitGo `models.BBox`). -/
structure BBox where
  x : Int
  y : Int
  width : Int
  height : Int
deriving DecidableEq, Repr

/-- A 2-D pixel coordinate (GenkitGo `models.Point`). -/
structure Point where
  x : Int
  y : Int
deriving DecidableEq, Repr

/-- One OCR block (GenkitGo `models.BlockInfo`): id, text, confidence in
`[0,1]`, bbox, the four bbox corner points, and a block-type tag. -/
structure BlockInfo where
  id : Int
  text : String
  confidence : ℚ
  bbox : BBox
  bboxPoints : List Point
  blockType : String
deriving DecidableEq, Repr

/-- A raw bounding box produced by the OCR engine (gosseract `BoundingBox`):
a recognized word, a confidence on the 0–100 scale, and the min/max pixel
corners of the box. -/
structure Box where
  word : String
  confidence : ℚ
  minX : Int
  minY : Int
  maxX : Int
  maxY : Int
deriving DecidableEq, Repr

/-- Pair every list element with its index, starting from `n`
(the Go `for i, box := range boxes` loop counter). -/
def withIdx (n : Nat) : List α → List (Nat × α)
  | [] => []
  | a :: as => (n, a) :: withIdx (n + 1) as

/-- Build one `BlockInfo` from an engine box exactly as the loop body of
`ExtractBlocks.Execute` does: `ID` is the loop index, confidence is the
engine value divided by 100, the bbox is derived from the min/max corners. -/
def mkBlock (i : Nat) (b : Box) : BlockInfo :=
  { id := Int.ofNat i
    text := b.word
    confidence := b.confidence / 100
    bbox := { x := b.minX, y := b.minY, width := b.maxX - b.minX, height := b.maxY - b.minY }
    bboxPoints := [⟨b.minX, b.minY⟩, ⟨b.maxX, b.minY⟩, ⟨b.maxX, b.maxY⟩, ⟨b.minX, b.maxY⟩]
    blockType := "text" }

/-- The box-to-block conversion loop of `ExtractBlocks.Execute`: boxes whose
word is empty are skipped (their loop index is still consumed), every other
box becomes a `BlockInfo` via `mkBlock`. -/
def convertBoxes (boxes : List Box) : List BlockInfo :=
  ((withIdx 0 boxes).filter (fun p => p.2.word != "")).map (fun p => mkBlock p.1 p.2)

/-- GenkitGo `models.OCRResult`, restricted to the fields the claims are
about: the block list, `total_blocks` and `average_confidence`. -/
structure OCRResult where
  blocks : List BlockInfo
  totalBlocks : Nat
  averageConf : ℚ
deriving DecidableEq, Repr

/-- Sum of the confidences of a block list (the accumulation loop of
`ExtractBlocks.Execute`). -/
def sumConf (blocks : List BlockInfo) : ℚ :=
  (blocks.map (·.confidence)).sum

/-- `ExtractBlocks.Execute` from the engine's boxes onward: convert the boxes,
then compute the average confidence (0 when there are no blocks, otherwise
the sum divided by the count) and `total_blocks`. -/
def extractBlocks (boxes : List Box) : OCRResult :=
  let blocks := convertBoxes boxes
  let avg := if blocks.length = 0 then 0 else sumConf blocks / (blocks.length : ℚ)
  { blocks := blocks, totalBlocks := blocks.length, averageConf := avg }

/-- `ProcessPDF` result (the Go `PDFResult` struct), restricted to the fields
the claims are about. -/
structure PDFResult where
  totalPages : Nat
  totalBlocks : Nat
  averageConf : ℚ
  pages : List OCRResult
deriving DecidableEq, Repr

/-- The id-rewriting loop of `ProcessPDF.Execute`:
`result.Blocks[i].ID = totalBlocks + i` for every index `i` of the page. -/
def reassignIds (off : Nat) (blocks : List BlockInfo) : List BlockInfo :=
  (withIdx 0 blocks).map (fun p => { p.2 with id := Int.ofNat (off + p.1) })

/-- The per-page loop of `ProcessPDF.Execute`: OCR each page, rewrite its
block ids to be globally unique, and accumulate `totalBlocks` and the sum of
per-page average confidences.  Returns the page results together with the
final `totalBlocks` counter and confidence accumulator. -/
def processPagesAux (off : Nat) (acc : ℚ) : List (List Box) → List OCRResult × Nat × ℚ
  | [] => ([], off, acc)
  | pb :: rest =>
    let r := extractBlocks pb
    let r2 := { r with blocks := reassignIds off r.blocks }
    let out := processPagesAux (off + r.totalBlocks) (acc + r.averageConf) rest
    (r2 :: out.1, out.2)

/-- `ProcessPDF.Execute` from the rendered pages onward: a PDF with no pages
is an error (`none`); otherwise every page is OCRed, ids are reassigned
across pages, and the overall average confidence is the accumulated per-page
average confidence divided by the page count. -/
def processPDF (pageBoxes : List (List Box)) : Option PDFResult :=
  if pageBoxes.isEmpty then none
  else
    let out := processPagesAux 0 0 pageBoxes
    some
      { totalPages := pageBoxes.length
        totalBlocks := out.2.1
        averageConf := out.2.2 / (pageBoxes.length : ℚ)
        pages := out.1 }

/-- All block ids appearing in a list of page results, page by page. -/
def pageIds (pages : List OCRResult) : List Int :=
  (pages.map (fun p => p.blocks.map (·.id))).flatten

/-- All blocks of a list of page results, page by page. -/
def allBlocks (pages : List OCRResult) : List BlockInfo :=
  (pages.map (·.blocks)).flatten

theorem mem_withIdx_le {α : Type _} {p : Nat × α} :
    ∀ {n : Nat} {l : List α}, p ∈ withIdx n l → n ≤ p.1 := by
  intro n l
  induction l generalizing n with
  | nil => intro h; simp [withIdx] at h
  | cons a as ih =>
    intro h
    simp only [withIdx, List.mem_cons] at h
    rcases h with h | h
    · subst h; exact le_refl _
    · exact Nat.le_of_succ_le (ih h)

theorem mem_withIdx_lt {α : Type _} {p : Nat × α} :
    ∀ {n : Nat} {l : List α}, p ∈ withIdx n l → p.1 < n + l.length := by
  intro n l
  induction l generalizing n with
  | nil => intro h; simp [withIdx] at h
  | cons a as ih =>
    intro h
    simp only [withIdx, List.mem_cons] at h
    rcases h with h | h
    · subst h; simp
    · have := ih h
      simp only [List.length_cons]
      omega

theorem mem_withIdx_snd {α : Type _} {p : Nat × α} :
    ∀ {n : Nat} {l : List α}, p ∈ withIdx n l → p.2 ∈ l := by
  intro n l
  induction l generalizing n with
  | nil => intro h; simp [withIdx] at h
  | cons a as ih =>
    intro h
    simp only [withIdx, List.mem_cons] at h
    rcases h with h | h
    · rw [h]; exact List.mem_cons_self a as
    · exact List.mem_cons_of_mem a (ih h)

theorem withIdx_pairwise {α : Type _} :
    ∀ (n : Nat) (l : List α), (withIdx n l).Pairwise (fun a b => a.1 < b.1) := by
  intro n l
  induction l generalizing n with
  | nil => exact List.Pairwise.nil
  | cons a as ih =>
    refine List.Pairwise.cons ?_ (ih (n + 1))
    intro p hp
    exact Nat.lt_of_lt_of_le (Nat.lt_succ_self n) (mem_withIdx_le hp)

theorem convert_ids_lt (boxes : List Box) :
    ((convertBoxes boxes).map (·.id)).Pairwise (· < ·) := by
  unfold convertBoxes
  rw [List.map_map, List.pairwise_map]
  have hsub := List.filter_sublist (l := withIdx 0 boxes)
    (p := fun p => p.2.word != "")
  refine List.Pairwise.sublist hsub ?_
  refine (withIdx_pairwise 0 boxes).imp ?_
  intro a b hab
  simpa [mkBlock] using Int.ofNat_lt.mpr hab

theorem reassign_map_id (off : Nat) (bl : List BlockInfo) :
    (reassignIds off bl).map (·.id)
      = (withIdx 0 bl).map (fun p => Int.ofNat (off + p.1)) := by
  unfold reassignIds
  rw [List.map_map]
  rfl

theorem reassign_ids_lt (off : Nat) (bl : List BlockInfo) :
    ((reassignIds off bl).map (·.id)).Pairwise (· < ·) := by
  rw [reassign_map_id, List.pairwise_map]
  refine (withIdx_pairwise 0 bl).imp ?_
  intro a b hab
  exact Int.ofNat_lt.mpr (by omega)

theorem reassign_ids_bounds (off : Nat) (bl : List BlockInfo) :
    ∀ i ∈ (reassignIds off bl).map (·.id),
      Int.ofNat off ≤ i ∧ i < Int.ofNat (off + bl.length) := by
  rw [reassign_map_id]
  intro i hi
  rw [List.mem_map] at hi
  obtain ⟨p, hp, rfl⟩ := hi
  have h1 := mem_withIdx_le hp
  have h2 := mem_withIdx_lt hp
  constructor
  · exact Int.ofNat_le.mpr (by omega)
  · exact Int.ofNat_lt.mpr (by omega)

theorem pageIds_nil : pageIds [] = [] := rfl

theorem pageIds_cons (p : OCRResult) (ps : List OCRResult) :
    pageIds (p :: ps) = p.blocks.map (·.id) ++ pageIds ps := by
  simp [pageIds]

theorem withIdx_length {α : Type _} : ∀ (n : Nat) (l : List α), (withIdx n l).length = l.length := by
  intro n l
  induction l generalizing n with
  | nil => rfl
  | cons a as ih => simp [withIdx, ih]

theorem reassign_length (off : Nat) (bl : List BlockInfo) :
    (reassignIds off bl).length = bl.length := by
  unfold reassignIds
  rw [List.length_map, withIdx_length]

theorem processPagesAux_ids (pbs : List (List Box)) :
    ∀ (off : Nat) (acc : ℚ),
      (pageIds (processPagesAux off acc pbs).1).Pairwise (· < ·) ∧
      ∀ i ∈ pageIds (processPagesAux off acc pbs).1, Int.ofNat off ≤ i := by
  induction pbs with
  | nil =>
    intro off acc
    exact ⟨List.Pairwise.nil, by intro i hi; simp [pageIds, processPagesAux] at hi⟩
  | cons pb rest ih =>
    intro off acc
    have hlen : (extractBlocks pb).totalBlocks = (extractBlocks pb).blocks.length := rfl
    obtain ⟨ihp, ihb⟩ := ih (off + (extractBlocks pb).totalBlocks) (acc + (extractBlocks pb).averageConf)
    have hfirstlt := reassign_ids_lt off (extractBlocks pb).blocks
    have hfirstb := reassign_ids_bounds off (extractBlocks pb).blocks
    constructor
    · simp only [processPagesAux, pageIds_cons]
      rw [List.pairwise_append]
      refine ⟨hfirstlt, ihp, ?_⟩
      intro a ha b hb
      have h1 := (hfirstb a ha).2
      have h2 := ihb b hb
      calc a < Int.ofNat (off + (extractBlocks pb).blocks.length) := h1
        _ ≤ b := by rw [hlen] at h2; exact h2
    · simp only [processPagesAux, pageIds_cons]
      intro i hi
      rw [List.mem_append] at hi
      rcases hi with hi | hi
      · exact (hfirstb i hi).1
      · have := ihb i hi
        refine le_trans ?_ this
        exact Int.ofNat_le.mpr (by omega)

theorem processPagesAux_avg (pbs : List (List Box)) :
    ∀ (off : Nat) (acc : ℚ),
      (processPagesAux off acc pbs).2.2
        = acc + (((processPagesAux off acc pbs).1).map (·.averageConf)).sum ∧
      (processPagesAux off acc pbs).1.length = pbs.length := by
  induction pbs with
  | nil => intro off acc; simp [processPagesAux]
  | cons pb rest ih =>
    intro off acc
    obtain ⟨ihs, ihl⟩ := ih (off + (extractBlocks pb).totalBlocks) (acc + (extractBlocks pb).averageConf)
    constructor
    · simp only [processPagesAux, List.map_cons, List.sum_cons]
      rw [ihs]
      ring
    · simpa [processPagesAux] using ihl

/-- A two-page sample input for the PDF path: one box on page one, two boxes
on page two. -/
def pdfSample : List (List Box) :=
  [[{ word := "a", confidence := 50, minX := 0, minY := 0, maxX := 2, maxY := 2 }],
   [{ word := "b", confidence := 80, minX := 0, minY := 0, maxX := 3, maxY := 3 },
    { word := "c", confidence := 100, minX := 4, minY := 0, maxX := 6, maxY := 2 }]]

/-- A two-page sample with different block counts per page: the mean of the
per-page averages is 1/2, the mean over all blocks is 2/3. -/
def pdfDiff : List (List Box) :=
  [[{ word := "x", confidence := 0, minX := 0, minY := 0, maxX := 1, maxY := 1 }],
   [{ word := "y", confidence := 100, minX := 0, minY := 0, maxX := 1, maxY := 1 },
    { word := "z", confidence := 100, minX := 2, minY := 0, maxX := 3, maxY := 1 }]]

/-- C1: every page result of the single-image path (`ExtractBlocks.Execute`)
has pairwise distinct block ids, and in the multi-page PDF path
(`ProcessPDF.Execute`, which reassigns ids across pages) all block ids across
all page results are pairwise distinct. -/
theorem C1_page_result_ids_pairwise_distinct :
    (∀ boxes : List Box, ((extractBlocks boxes).blocks.map (·.id)).Pairwise (· ≠ ·)) ∧
    (∀ (pageBoxes : List (List Box)) (r : PDFResult), processPDF pageBoxes = some r →
      (pageIds r.pages).Pairwise (· ≠ ·)) := by
  constructor
  · intro boxes
    exact (convert_ids_lt boxes).imp (fun h => ne_of_lt h)
  · intro pbs r hr
    unfold processPDF at hr
    by_cases h : pbs.isEmpty = true
    · rw [if_pos h] at hr; cases hr
    · rw [if_neg h] at hr
      injection hr with hr
      subst hr
      exact ((processPagesAux_ids pbs 0 0).1).imp (fun h => ne_of_lt h)

/-- Witness for C1: the PDF branch applied to the concrete sample input. -/
theorem C1_witness :
    (pageIds ((processPDF pdfSample).get (by decide)).pages).Pairwise (· ≠ ·) :=
  C1_page_result_ids_pairwise_distinct.2 pdfSample _ (Option.some_get _).symm

/-- C9: in the single-image path the average confidence is the arithmetic
mean of the block confidences (0 when there are none); in the PDF path the
overall average confidence is the arithmetic mean of the per-page average
confidences; on a concrete input with unequal page sizes the latter differs
from the mean over all blocks. -/
theorem C9_average_confidence_semantics :
    (∀ boxes : List Box,
      (extractBlocks boxes).averageConf
        = if (extractBlocks boxes).blocks.length = 0 then 0
          else sumConf (extractBlocks boxes).blocks / ((extractBlocks boxes).blocks.length : ℚ)) ∧
    (∀ (pageBoxes : List (List Box)) (r : PDFResult), processPDF pageBoxes = some r →
      r.averageConf = ((r.pages.map (·.averageConf)).sum) / (r.pages.length : ℚ)) ∧
    (processPDF pdfDiff).map (·.averageConf) = some (1 / 2) ∧
    (processPDF pdfDiff).map
        (fun r => sumConf (allBlocks r.pages) / ((allBlocks r.pages).length : ℚ))
      = some (2 / 3) ∧
    (1 / 2 : ℚ) ≠ 2 / 3 := by
  refine ⟨?_, ?_, ?_, ?_, ?_⟩
  · intro boxes
    rfl
  · intro pbs r hr
    unfold processPDF at hr
    by_cases h : pbs.isEmpty = true
    · rw [if_pos h] at hr; cases hr
    · rw [if_neg h] at hr
      injection hr with hr
      subst hr
      obtain ⟨hs, hl⟩ := processPagesAux_avg pbs 0 0
      show (processPagesAux 0 0 pbs).2.2 / (pbs.length : ℚ) = _
      rw [hs, hl]
      ring_nf
  · simp [processPDF, pdfDiff, processPagesAux, extractBlocks, convertBoxes,
      withIdx, mkBlock, sumConf, reassignIds]
  · simp [processPDF, pdfDiff, processPagesAux, extractBlocks, convertBoxes,
      withIdx, mkBlock, sumConf, allBlocks, reassignIds]
    norm_num
  · norm_num

/-- Witness for C9: the PDF branch applied to the concrete sample input. -/
theorem C9_witness :
    ((processPDF pdfSample).get (by decide)).averageConf
      = ((((processPDF pdfSample).get (by decide)).pages.map (·.averageConf)).sum)
        / ((((processPDF pdfSample).get (by decide)).pages.length : ℚ)) :=
  C9_average_confidence_semantics.2.1 pdfSample _ (Option.some_get _).symm

/-- The `merge_threshold` validation rule of the Laravel boundary
(`nullable|integer|min:1|max:100` in the ProcessPdf/ProcessImage form
requests): an absent value passes, a present integer passes exactly when it
lies between 1 and 100. -/
def mergeThresholdRule (mt : Option Int) : Bool :=
  match mt with
  | none => true
  | some v => decide (1 ≤ v) && decide (v ≤ 100)

/-- C2: a present `merge_threshold` outside 1–100 fails the boundary
validation rule (the request is rejected before the pipeline runs), and any
value inside 1–100 passes it. -/
theorem C2_merge_threshold_validation (v : Int) :
    (v < 1 ∨ 100 < v → mergeThresholdRule (some v) = false) ∧
    (1 ≤ v → v ≤ 100 → mergeThresholdRule (some v) = true) := by
  constructor
  · intro h
    rcases h with h | h <;> simp [mergeThresholdRule] <;> omega
  · intro h1 h2
    simp [mergeThresholdRule]
    omega

/-- Witness for C2: the rule rejects 200 (the Laravel regression test's
input) and accepts 30 (the default). -/
theorem C2_witness :
    mergeThresholdRule (some 200) = false ∧ mergeThresholdRule (some 30) = true :=
  ⟨(C2_merge_threshold_validation 200).1 (Or.inr (by norm_num)),
   (C2_merge_threshold_validation 30).2 (by norm_num) (by norm_num)⟩

/-- OCR options consumed by the pipeline (GenkitGo `models.OCROptions` /
the spec's configuration flags). -/
structure OCROptions where
  mergeBlocks : Bool
  mergeThreshold : Int
  createSections : Bool
  buildHierarchyTree : Bool
deriving DecidableEq, Repr

/-- The option values the Go HTTP handler hardwires when invoking the OCR
service (`cmd/server` process-image handler: `MergeBlocks: true,
MergeThreshold: 30`; the section/hierarchy flags are left zero-valued). -/
def goHandlerOptions : OCROptions :=
  { mergeBlocks := true, mergeThreshold := 30
    createSections := false, buildHierarchyTree := false }

/-- The Laravel ProcessPdf controller's effective `merge_blocks`:
`$request->input('merge_blocks', true)`. -/
def effectiveMergeBlocks (req : Option Bool) : Bool := req.getD true

/-- The Laravel ProcessPdf controller's effective `merge_threshold`:
`$request->input('merge_threshold', 30)`. -/
def effectiveMergeThreshold (req : Option Int) : Int := req.getD 30

/-- C8: when the caller omits the options, `merge_blocks` defaults to true
and `merge_threshold` defaults to 30, in both the Laravel controller and the
Go handler. -/
theorem C8_option_defaults :
    effectiveMergeBlocks none = true ∧ effectiveMergeThreshold none = 30 ∧
    goHandlerOptions.mergeBlocks = true ∧ goHandlerOptions.mergeThreshold = 30 :=
  ⟨rfl, rfl, rfl, rfl⟩

/-- C3 counterexample: `ExtractBlocks.Execute` does not clamp: an engine box
with confidence 150 yields a block with confidence 3/2, outside `[0,1]`. -/
theorem C3_counterexample :
    ((extractBlocks
        [{ word := "w", confidence := 150, minX := 0, minY := 0, maxX := 1, maxY := 1 }]).blocks.map
      (·.confidence)) = [3 / 2] ∧ ¬((3 / 2 : ℚ) ≤ 1) := by
  constructor
  · simp [extractBlocks, convertBoxes, withIdx, mkBlock]
    norm_num
  · norm_num

/-- C3 (amended): the Go path converts by dividing by 100 without clamping,
so a block confidence can fall outside `[0,1]`; if every engine box
confidence is in `[0,100]`, every block of the result has confidence in
`[0,1]`. -/
theorem C3_confidence_division_bounds (boxes : List Box)
    (h : ∀ b ∈ boxes, 0 ≤ b.confidence ∧ b.confidence ≤ 100) :
    ∀ bl ∈ (extractBlocks boxes).blocks, 0 ≤ bl.confidence ∧ bl.confidence ≤ 1 := by
  intro bl hbl
  have hbl2 : bl ∈ convertBoxes boxes := hbl
  unfold convertBoxes at hbl2
  rw [List.mem_map] at hbl2
  obtain ⟨p, hp, rfl⟩ := hbl2
  have hpmem : p ∈ withIdx 0 boxes := List.mem_of_mem_filter hp
  obtain ⟨h0, h100⟩ := h p.2 (mem_withIdx_snd hpmem)
  constructor
  · show 0 ≤ p.2.confidence / 100
    positivity
  · show p.2.confidence / 100 ≤ 1
    rw [div_le_one (by norm_num)]
    exact h100

/-- Witness for C3's amended theorem: a concrete in-range box and the
concrete block it produces. -/
theorem C3_witness :
    0 ≤ (mkBlock 0
        { word := "w", confidence := 50, minX := 0, minY := 0, maxX := 1, maxY := 1 }).confidence ∧
    (mkBlock 0
        { word := "w", confidence := 50, minX := 0, minY := 0, maxX := 1, maxY := 1 }).confidence ≤ 1 :=
  C3_confidence_division_bounds
    [{ word := "w", confidence := 50, minX := 0, minY := 0, maxX := 1, maxY := 1 }]
    (by intro b hb; simp at hb; subst hb; norm_num)
    _ (by simp [extractBlocks, convertBoxes, withIdx])

/-- The block-update loop of `UpdateBlock.Execute`: find the first block of a
page whose `ID` matches, set its `Text` to the new text, and return the
updated block together with the rewritten page; `none` when no block of the
page matches. -/
def updateFirstBlock (blockID : Int) (newText : String) :
    List BlockInfo → Option (BlockInfo × List BlockInfo)
  | [] => none
  | b :: bs =>
    if b.id = blockID then
      some ({ b with text := newText }, { b with text := newText } :: bs)
    else
      (updateFirstBlock blockID newText bs).map (fun r => (r.1, b :: r.2))

/-- `UpdateBlock.Execute` over the stored page files: pages are scanned in
order, the first page containing the block id is rewritten and saved, every
other page file is left as it is; when no page contains the id an error is
returned (`none`) and no page is modified. -/
def updateBlockExec (blockID : Int) (newText : String) :
    List (List BlockInfo) → Option (BlockInfo × List (List BlockInfo))
  | [] => none
  | pg :: rest =>
    match updateFirstBlock blockID newText pg with
    | some r => some (r.1, r.2 :: rest)
    | none => (updateBlockExec blockID newText rest).map (fun r => (r.1, pg :: r.2))

theorem updateFirstBlock_none (blockID : Int) (newText : String) :
    ∀ bl : List BlockInfo,
      updateFirstBlock blockID newText bl = none ↔ ∀ b ∈ bl, b.id ≠ blockID := by
  intro bl
  induction bl with
  | nil => simp [updateFirstBlock]
  | cons b bs ih =>
    by_cases h : b.id = blockID
    · simp [updateFirstBlock, h]
    · simp only [updateFirstBlock, if_neg h, Option.map_eq_none', ih, List.mem_cons]
      constructor
      · rintro hall b2 (rfl | hb2)
        · exact h
        · exact hall b2 hb2
      · intro hall b2 hb2
        exact hall b2 (Or.inr hb2)

theorem updateFirstBlock_some (blockID : Int) (newText : String) :
    ∀ (bl : List BlockInfo) (b : BlockInfo) (bl2 : List BlockInfo),
      updateFirstBlock blockID newText bl = some (b, bl2) →
      ∃ pre x suf,
        bl = pre ++ x :: suf ∧ (∀ y ∈ pre, y.id ≠ blockID) ∧ x.id = blockID ∧
        b = { x with text := newText } ∧ bl2 = pre ++ { x with text := newText } :: suf := by
  intro bl
  induction bl with
  | nil => intro b bl2 h; simp [updateFirstBlock] at h
  | cons a as ih =>
    intro b bl2 h
    by_cases ha : a.id = blockID
    · rw [updateFirstBlock, if_pos ha] at h
      rw [Option.some.injEq, Prod.mk.injEq] at h
      obtain ⟨hb, hbl2⟩ := h
      exact ⟨[], a, as, rfl, by simp, ha, hb.symm, by rw [← hbl2]; rfl⟩
    · rw [updateFirstBlock, if_neg ha] at h
      rcases Option.map_eq_some'.mp h with ⟨r, hr, heq⟩
      rw [Prod.mk.injEq] at heq
      obtain ⟨hb, hbl2⟩ := heq
      obtain ⟨pre, x, suf, hbl, hpre, hx, hb2, hr2⟩ := ih r.1 r.2 (by rw [← hr])
      refine ⟨a :: pre, x, suf, by rw [hbl]; rfl, ?_, hx, by rw [← hb, hb2], ?_⟩
      · intro y hy
        rcases List.mem_cons.mp hy with rfl | hy2
        · exact ha
        · exact hpre y hy2
      · rw [← hbl2, hr2]; rfl

theorem updateBlockExec_none (blockID : Int) (newText : String) :
    ∀ pages : List (List BlockInfo),
      updateBlockExec blockID newText pages = none ↔
        ∀ pg ∈ pages, ∀ b ∈ pg, b.id ≠ blockID := by
  intro pages
  induction pages with
  | nil => simp [updateBlockExec]
  | cons pg rest ih =>
    cases hu : updateFirstBlock blockID newText pg with
    | some r =>
      simp only [updateBlockExec, hu]
      constructor
      · intro h; cases h
      · intro hall
        have : updateFirstBlock blockID newText pg = none :=
          (updateFirstBlock_none blockID newText pg).mpr
            (hall pg (List.mem_cons_self pg rest))
        rw [this] at hu; cases hu
    | none =>
      simp only [updateBlockExec, hu, Option.map_eq_none', ih, List.mem_cons]
      constructor
      · rintro hall q (rfl | hq) b hb
        · exact (updateFirstBlock_none blockID newText q).mp hu b hb
        · exact hall q hq b hb
      · intro hall q hq b hb
        exact hall q (Or.inr hq) b hb

theorem updateBlockExec_some (blockID : Int) (newText : String) :
    ∀ (pages : List (List BlockInfo)) (b : BlockInfo) (pages2 : List (List BlockInfo)),
      updateBlockExec blockID newText pages = some (b, pages2) →
      ∃ prePages pg pg2 sufPages,
        pages = prePages ++ pg :: sufPages ∧
        pages2 = prePages ++ pg2 :: sufPages ∧
        (∀ q ∈ prePages, ∀ blk ∈ q, blk.id ≠ blockID) ∧
        ∃ pre x suf,
          pg = pre ++ x :: suf ∧ (∀ y ∈ pre, y.id ≠ blockID) ∧ x.id = blockID ∧
          b = { x with text := newText } ∧
          pg2 = pre ++ { x with text := newText } :: suf := by
  intro pages
  induction pages with
  | nil => intro b pages2 h; simp [updateBlockExec] at h
  | cons pg rest ih =>
    intro b pages2 h
    cases hu : updateFirstBlock blockID newText pg with
    | some r =>
      rw [updateBlockExec, hu, Option.some.injEq, Prod.mk.injEq] at h
      obtain ⟨hb, hp2⟩ := h
      subst hb
      subst hp2
      obtain ⟨pre, x, suf, hbl, hpre, hx, hb2, hr2⟩ :=
        updateFirstBlock_some blockID newText pg r.1 r.2 hu
      exact ⟨[], pg, r.2, rest, rfl, rfl, by simp,
        pre, x, suf, hbl, hpre, hx, hb2, hr2⟩
    | none =>
      rw [updateBlockExec, hu] at h
      rcases Option.map_eq_some'.mp h with ⟨r, hr, heq⟩
      rw [Prod.mk.injEq] at heq
      obtain ⟨hb, hp2⟩ := heq
      subst hb
      subst hp2
      obtain ⟨prePages, pg1, pg2, sufPages, hps, hps2, hpresafe, inner⟩ :=
        ih r.1 r.2 (by rw [← hr])
      refine ⟨pg :: prePages, pg1, pg2, sufPages, by rw [hps]; rfl, ?_, ?_, inner⟩
      · rw [hps2]; rfl
      · intro q hq blk hblk
        rcases List.mem_cons.mp hq with rfl | hq2
        · exact (updateFirstBlock_none blockID newText q).mp hu blk hblk
        · exact hpresafe q hq2 blk hblk

/-- C10: `UpdateBlock.Execute` rewrites exactly the `Text` of the first
matching block on the first page containing the id — that block keeps every
other field, every other block and every other page are unchanged — and when
no block matches it returns an error and modifies nothing. -/
theorem C10_update_block_text_frame (blockID : Int) (newText : String) :
    (∀ pages : List (List BlockInfo),
      updateBlockExec blockID newText pages = none ↔
        ∀ pg ∈ pages, ∀ b ∈ pg, b.id ≠ blockID) ∧
    (∀ (pages : List (List BlockInfo)) (b : BlockInfo) (pages2 : List (List BlockInfo)),
      updateBlockExec blockID newText pages = some (b, pages2) →
      ∃ prePages pg pg2 sufPages,
        pages = prePages ++ pg :: sufPages ∧
        pages2 = prePages ++ pg2 :: sufPages ∧
        (∀ q ∈ prePages, ∀ blk ∈ q, blk.id ≠ blockID) ∧
        ∃ pre x suf,
          pg = pre ++ x :: suf ∧ (∀ y ∈ pre, y.id ≠ blockID) ∧ x.id = blockID ∧
          b = { x with text := newText } ∧
          pg2 = pre ++ { x with text := newText } :: suf) :=
  ⟨updateBlockExec_none blockID newText, updateBlockExec_some blockID newText⟩

/-- A concrete two-page store used to witness C10. -/
def pagesSample : List (List BlockInfo) :=
  [[{ id := 0, text := "alpha", confidence := 1 / 2, bbox := ⟨0, 0, 10, 10⟩,
      bboxPoints := [], blockType := "text" }],
   [{ id := 1, text := "beta", confidence := 3 / 4, bbox := ⟨0, 20, 10, 10⟩,
      bboxPoints := [], blockType := "text" }]]

/-- Witness for C10: looking up an id that no stored block carries is an
error and leaves the store unmodified. -/
theorem C10_witness : updateBlockExec 7 "edited" pagesSample = none :=
  ((C10_update_block_text_frame 7 "edited").1 pagesSample).mpr (by
    intro pg hpg b hb
    simp only [pagesSample, List.mem_cons, List.not_mem_nil, or_false] at hpg
    rcases hpg with rfl | rfl <;> simp at hb <;> rw [hb] <;> decide)

/-- Modelled from the spec: a raw Detection (§3) — text, confidence and bbox
(the advisory layout label plays no role in the claims). -/
structure Det where
  text : String
  confidence : ℚ
  bbox : BBox
deriving DecidableEq, Repr

/-- Modelled from the spec: a core Block (§3) as produced by the pipeline:
id, text, confidence, bbox and a block-type label. -/
structure Block where
  id : Nat
  text : String
  confidence : ℚ
  bbox : BBox
  blockType : String
deriving DecidableEq, Repr

/-- Modelled from the spec: clamping an out-of-range confidence into `[0,1]`
(§4.1, §7). -/
def clamp01 (c : ℚ) : ℚ := max 0 (min 1 c)

/-- Modelled from the spec: §4.1 merge condition (a) — the vertical bands of
the two boxes overlap or are separated by at most `t` pixels. -/
def vertClose (t : Int) (a b : BBox) : Bool :=
  decide (b.y ≤ a.y + a.height + t) && decide (a.y ≤ b.y + b.height + t)

/-- Modelled from the spec: §4.1 merge condition (b) — horizontal alignment
score at least 0.8, the score being the overlapping horizontal extent divided
by the shorter width; `5 * overlap ≥ 4 * min width` is that inequality with
denominators cleared. -/
def alignedHoriz (a b : BBox) : Bool :=
  let ov := min (a.x + a.width) (b.x + b.width) - max a.x b.x
  decide (5 * max ov 0 ≥ 4 * min a.width b.width)

/-- Modelled from the spec: two detections are merge candidates when both
§4.1 conditions hold. -/
def isCandidate (t : Int) (a b : Det) : Bool :=
  vertClose t a.bbox b.bbox && alignedHoriz a.bbox b.bbox

/-- Minimal enclosing rectangle of two bboxes (§4.1). -/
def enclosing (a b : BBox) : BBox :=
  { x := min a.x b.x
    y := min a.y b.y
    width := max (a.x + a.width) (b.x + b.width) - min a.x b.x
    height := max (a.y + a.height) (b.y + b.height) - min a.y b.y }

/-- Modelled from the spec: merging two candidate detections (§4.1): minimal
enclosing bbox, text concatenation with a single space, length-weighted
average of the confidences. -/
def mergeTwo (a b : Det) : Det :=
  let la : ℚ := a.text.length
  let lb : ℚ := b.text.length
  { text := a.text ++ " " ++ b.text
    confidence := if la + lb = 0 then 0 else (la * a.confidence + lb * b.confidence) / (la + lb)
    bbox := enclosing a.bbox b.bbox }

/-- Reading order `(y, x)` ascending on bboxes (§4.1). -/
def leYX (a b : Det) : Bool :=
  decide (a.bbox.y < b.bbox.y) ||
    (decide (a.bbox.y = b.bbox.y) && decide (a.bbox.x ≤ b.bbox.x))

/-- Insertion step of the `(y, x)` sort. -/
def insertYX (a : Det) : List Det → List Det
  | [] => [a]
  | b :: bs => if leYX a b then a :: b :: bs else b :: insertYX a bs

/-- Insertion sort by `(y, x)` ascending (§4.1 "Sort detections by (y, x)"). -/
def sortYX : List Det → List Det
  | [] => []
  | a :: as => insertYX a (sortYX as)

/-- Modelled from the spec: the left-to-right scan of one merging pass
(§4.1): the current detection absorbs the next one while they are merge
candidates; returns the rewritten tail and whether any merge happened. -/
def scanMerge (t : Int) : Det → List Det → List Det × Bool
  | cur, [] => ([cur], false)
  | cur, b :: rest =>
    if isCandidate t cur b then
      ((scanMerge t (mergeTwo cur b) rest).1, true)
    else
      let out := scanMerge t b rest
      (cur :: out.1, out.2)

/-- One merging pass over the candidate set (§4.1). -/
def mergePass (t : Int) : List Det → List Det × Bool
  | [] => ([], false)
  | a :: as => scanMerge t a as

/-- Modelled from the spec: repeated passes until a pass produces no merges
or the bounded iteration cap is exhausted (§4.1); the Boolean records whether
the loop stabilized (ended by a no-merge pass) rather than hitting the cap. -/
def mergeLoop (t : Int) : Nat → List Det → List Det × Bool
  | 0, l => (l, false)
  | Nat.succ n, l =>
    if (mergePass t l).2 then mergeLoop t n (mergePass t l).1
    else ((mergePass t l).1, true)

/-- Modelled from the spec: the pass cap, "a bounded iteration cap (e.g. 5
passes)" (§4.1). -/
def passCap : Nat := 5

/-- Modelled from the spec: §4.1 input policy — detections with non-positive
width or height are dropped, confidences are clamped into `[0,1]`. -/
def preprocess (dets : List Det) : List Det :=
  (dets.filter (fun d => decide (0 < d.bbox.width) && decide (0 < d.bbox.height))).map
    (fun d => { d with confidence := clamp01 d.confidence })

/-- The merged detections before id assignment: preprocess, sort by `(y, x)`,
run the bounded pass loop. -/
def mergeCore (dets : List Det) (t : Int) : List Det :=
  (mergeLoop t passCap (sortYX (preprocess dets))).1

/-- Whether the merge loop stabilized (terminated because a pass produced no
merges, not because the cap was reached). -/
def mergeStabilized (dets : List Det) (t : Int) : Bool :=
  (mergeLoop t passCap (sortYX (preprocess dets))).2

/-- Modelled from the spec: `Merge(detections, thresholdPx) -> []Block`
(§4.1): the merged detections receive freshly assigned sequential ids. -/
def Merge (dets : List Det) (t : Int) : List Block :=
  (withIdx 0 (mergeCore dets t)).map
    (fun p =>
      { id := p.1, text := p.2.text, confidence := p.2.confidence
        bbox := p.2.bbox, blockType := "paragraph" })

/-- View merged blocks again as detections (for re-running `Merge` on its own
output). -/
def toDets (blocks : List Block) : List Det :=
  blocks.map (fun b => { text := b.text, confidence := b.confidence, bbox := b.bbox })

theorem withIdx_map_snd {α β : Type _} (g : α → β) :
    ∀ (n : Nat) (l : List α), (withIdx n l).map (fun p => g p.2) = l.map g := by
  intro n l
  induction l generalizing n with
  | nil => rfl
  | cons a as ih => simp [withIdx, ih]

theorem toDets_Merge (dets : List Det) (t : Int) :
    toDets (Merge dets t) = mergeCore dets t := by
  unfold toDets Merge
  rw [List.map_map]
  have h := withIdx_map_snd
    (fun d : Det => ({ text := d.text, confidence := d.confidence, bbox := d.bbox } : Det))
    0 (mergeCore dets t)
  rw [show ((fun b : Block => ({ text := b.text, confidence := b.confidence, bbox := b.bbox } : Det)) ∘
      (fun p : Nat × Det =>
        ({ id := p.1, text := p.2.text, confidence := p.2.confidence
           bbox := p.2.bbox, blockType := "paragraph" } : Block)))
    = (fun p : Nat × Det => ({ text := p.2.text, confidence := p.2.confidence, bbox := p.2.bbox } : Det)) from rfl]
  rw [h]
  have hid : (fun d : Det => ({ text := d.text, confidence := d.confidence, bbox := d.bbox } : Det)) = id := by
    funext d; rfl
  rw [hid, List.map_id]

theorem scanMerge_no_merge (t : Int) :
    ∀ (l : List Det) (cur : Det), (scanMerge t cur l).2 = false →
      (scanMerge t cur l).1 = cur :: l := by
  intro l
  induction l with
  | nil => intro cur _; rfl
  | cons b rest ih =>
    intro cur h
    by_cases hc : isCandidate t cur b = true
    · rw [scanMerge, if_pos hc] at h
      simp at h
    · rw [scanMerge, if_neg hc] at h ⊢
      simp only at h ⊢
      rw [ih b h]

theorem mergePass_no_merge (t : Int) :
    ∀ l : List Det, (mergePass t l).2 = false → (mergePass t l).1 = l := by
  intro l h
  cases l with
  | nil => rfl
  | cons a as => exact scanMerge_no_merge t as a h

theorem mergeLoop_stabilized (t : Int) :
    ∀ (n : Nat) (l : List Det), (mergeLoop t n l).2 = true →
      mergePass t (mergeLoop t n l).1 = ((mergeLoop t n l).1, false) := by
  intro n
  induction n with
  | zero => intro l h; simp [mergeLoop] at h
  | succ n ih =>
    intro l h
    by_cases hm : (mergePass t l).2 = true
    · rw [mergeLoop, if_pos hm] at h ⊢
      exact ih _ h
    · have h2 : (mergePass t l).2 = false := by
        revert hm; cases (mergePass t l).2 <;> simp
      have h1 : (mergePass t l).1 = l := mergePass_no_merge t l h2
      rw [mergeLoop, if_neg hm]
      simp only
      rw [h1]
      exact Prod.ext_iff.mpr ⟨h1, h2⟩

/-- Modelled from the spec: scenario A's two detections (§8), which merge in
one pass, after which the loop stabilizes. -/
def scenarioA : List Det :=
  [{ text := "Hello", confidence := 1, bbox := ⟨0, 0, 50, 20⟩ },
   { text := "World", confidence := 1, bbox := ⟨55, 0, 50, 20⟩ }]

/-- A vertical cascade that needs six passes: each of the six narrow
detections only becomes a candidate of the wide bottom detection's growing
merge, one link per pass, so the 5-pass cap stops with merges remaining. -/
def mergeCex : List Det :=
  [{ text := "a", confidence := 1, bbox := ⟨10, 0, 8, 10⟩ },
   { text := "b", confidence := 1, bbox := ⟨20, 30, 8, 10⟩ },
   { text := "c", confidence := 1, bbox := ⟨30, 60, 8, 10⟩ },
   { text := "d", confidence := 1, bbox := ⟨40, 90, 8, 10⟩ },
   { text := "e", confidence := 1, bbox := ⟨50, 120, 8, 10⟩ },
   { text := "f", confidence := 1, bbox := ⟨60, 150, 8, 10⟩ },
   { text := "g", confidence := 1, bbox := ⟨0, 180, 80, 10⟩ }]

/-- C6 counterexample: with the spec's bounded iteration cap, `Merge` is not
idempotent: on the cascade input re-running `Merge` on its own output with
the same threshold (30) merges further (one block instead of two). -/
theorem C6_counterexample :
    (Merge (toDets (Merge mergeCex 30)) 30).length ≠ (Merge mergeCex 30).length := by
  decide

/-- C6 (amended): when the merge loop terminates because a pass produced no
merges (rather than by hitting the 5-pass cap), `Merge`'s output is a fixed
point of the merge pass: one further pass over it produces no merges. -/
theorem C6_merge_fixed_point_when_stabilized (dets : List Det) (t : Int)
    (h : mergeStabilized dets t = true) :
    mergePass t (toDets (Merge dets t)) = (toDets (Merge dets t), false) := by
  rw [toDets_Merge]
  exact mergeLoop_stabilized t passCap (sortYX (preprocess dets)) h

/-- Witness for C6's amended theorem: scenario A stabilizes and its merged
output admits no further merge. -/
theorem C6_witness :
    mergeStabilized scenarioA 30 = true ∧
    mergePass 30 (toDets (Merge scenarioA 30)) = (toDets (Merge scenarioA 30), false) :=
  ⟨by decide, C6_merge_fixed_point_when_stabilized scenarioA 30 (by decide)⟩

/-- Modelled from the spec: a Section of the §6 result object: id, type
(header/body/footer) and the member block ids in reading order. -/
structure SectionOut where
  id : String
  type : String
  blockIds : List Nat
deriving DecidableEq, Repr

/-- Modelled from the spec: §4.2 position pass — header when
`y < 0.15*pageHeight`, footer when `y+height > 0.85*pageHeight`, otherwise
body (denominators cleared: 0.15 = 3/20, 0.85 = 17/20). -/
def positionType (pageHeight : Int) (b : Block) : String :=
  if 20 * b.bbox.y < 3 * pageHeight then "header"
  else if 20 * (b.bbox.y + b.bbox.height) > 17 * pageHeight then "footer"
  else "body"

/-- Modelled from the spec: §4.2 input constraint — an absent pageHeight is
computed as the maximum `y+height` over the blocks. -/
def pageHeightOf (blocks : List Block) : Int :=
  (blocks.map (fun b => b.bbox.y + b.bbox.height)).foldr max 0

def isDigitCh (c : Char) : Bool := decide ('0' ≤ c) && decide (c ≤ '9')

def isWS (c : Char) : Bool := c == ' ' || c == '\t'

/-- After the leading digits of an ordinal: `.` or `)` followed by
whitespace (§4.2). -/
def ordinalTail : List Char → Bool
  | c :: c2 :: _ => (c == '.' || c == ')') && isWS c2
  | _ => false

def dropDigits : List Char → List Char
  | [] => []
  | c :: cs => if isDigitCh c then dropDigits cs else c :: cs

/-- Modelled from the spec: §4.2 list-item pattern — a bullet glyph
(`•`, `-`, `*`) or an ordinal (`<digits>.` or `<digits>)`) followed by
whitespace. -/
def listItemText (s : String) : Bool :=
  match s.toList with
  | [] => false
  | c :: rest =>
    if c == '•' || c == '-' || c == '*' then
      match rest with
      | c2 :: _ => isWS c2
      | [] => false
    else if isDigitCh c then ordinalTail (dropDigits rest)
    else false

def hasTwoTabs : List Char → Bool
  | c :: c2 :: rest => (c == '\t' && c2 == '\t') || hasTwoTabs (c2 :: rest)
  | _ => false

/-- Modelled from the spec: §4.2 column separator — a `|` character or
multiple consecutive tab characters. -/
def hasColumnSep (s : String) : Bool :=
  s.toList.any (· == '|') || hasTwoTabs s.toList

def bboxArea (b : BBox) : Int := b.width * b.height

/-- Modelled from the spec: §4.2 table alignment — number of other blocks
whose x is within a small tolerance (5px). -/
def alignedWithCount (blocks : List Block) (b : Block) : Nat :=
  (blocks.filter (fun c =>
    decide (c.id ≠ b.id) && decide (-5 ≤ c.bbox.x - b.bbox.x) &&
      decide (c.bbox.x - b.bbox.x ≤ 5))).length

/-- Modelled from the spec: §4.2 table rule — column separator in the text,
or x-aligned with at least two other body blocks. -/
def tableBlock (blocks : List Block) (b : Block) : Bool :=
  hasColumnSep b.text || decide (2 ≤ alignedWithCount blocks b)

def insertIntDesc (a : Int) : List Int → List Int
  | [] => [a]
  | b :: bs => if b ≤ a then a :: b :: bs else b :: insertIntDesc a bs

def sortIntDesc : List Int → List Int
  | [] => []
  | a :: as => insertIntDesc a (sortIntDesc as)

def insertNatAsc (a : Nat) : List Nat → List Nat
  | [] => [a]
  | b :: bs => if a ≤ b then a :: b :: bs else b :: insertNatAsc a bs

def sortNatAsc : List Nat → List Nat
  | [] => []
  | a :: as => insertNatAsc a (sortNatAsc as)

/-- Modelled from the spec: the top-quartile cutoff — the area at the
quarter index of the areas sorted descending (§4.2). -/
def quartileCutoff (areas : List Int) : Int :=
  (sortIntDesc areas).getD (areas.length / 4) 0

/-- Modelled from the spec: the median text length among body blocks
(§4.2). -/
def medianLen (lens : List Nat) : Nat :=
  (sortNatAsc lens).getD (lens.length / 2) 0

/-- Modelled from the spec: §4.2 pattern pass — header/footer keep their
positional type; body blocks are refined to list_item, table, title (top
quartile area, below-median text length, first of the body section) or
paragraph. -/
def resolveType (pageHeight : Int) (blocks : List Block) (b : Block) : String :=
  let pt := positionType pageHeight b
  if pt = "header" ∨ pt = "footer" then pt
  else
    let body := blocks.filter (fun c => positionType pageHeight c == "body")
    if listItemText b.text then "list_item"
    else if tableBlock body b then "table"
    else if decide (quartileCutoff (body.map (fun c => bboxArea c.bbox)) ≤ bboxArea b.bbox)
        && decide (b.text.length < medianLen (body.map (fun c => c.text.length)))
        && (body.head?.elim false (fun h => h.id == b.id)) then "title"
    else "paragraph"

/-- Modelled from the spec: `Classify(blocks, pageHeight)` (§4.2): the
updated blocks with refined block_type, sections grouping blocks of the same
positional type in reading order, and a count of blocks per resolved type. -/
def classify (blocks : List Block) (pageHeight : Int) :
    List Block × List SectionOut × List (String × Nat) :=
  let updated := blocks.map (fun b => { b with blockType := resolveType pageHeight blocks b })
  let sections := (["header", "body", "footer"].map (fun t =>
      ({ id := t, type := t
         blockIds := (updated.filter (fun b => positionType pageHeight b == t)).map (·.id) }
        : SectionOut))).filter (fun s => !s.blockIds.isEmpty)
  let types := ["title", "paragraph", "table", "list_item", "header", "footer", "other"]
  let summary := (types.map (fun t =>
      (t, (updated.filter (fun b => b.blockType == t)).length))).filter (fun p => p.2 ≠ 0)
  (updated, sections, summary)

/-- Modelled from the spec: one node of the containment hierarchy (§3). -/
structure HierarchyNode where
  blockId : Nat
  parentId : Option Nat
  children : List Nat
  depth : Nat
deriving DecidableEq, Repr

/-- Modelled from the spec: the §4.3 hierarchy statistics. -/
structure HierarchyStats where
  totalBlocks : Nat
  rootBlocks : Nat
  maxDepth : Nat
  avgChildren : ℚ
  blocksByLevel : List (Nat × Nat)
deriving DecidableEq, Repr

/-- Modelled from the spec: §4.3 containment with a pixel tolerance on all
four edges. -/
def containsTol (tol : Int) (a b : BBox) : Bool :=
  decide (a.x - tol ≤ b.x) && decide (a.y - tol ≤ b.y) &&
  decide (b.x + b.width ≤ a.x + a.width + tol) &&
  decide (b.y + b.height ≤ a.y + a.height + tol)

/-- Modelled from the spec: the §4.3 containment tolerance ("e.g. 2px"). -/
def hierTol : Int := 2

/-- Modelled from the spec: valid containment candidates for `b` (§4.3 with
the degenerate-geometry guard): `a` contains `b`, excluding the
higher-id member of a mutually containing pair, so that the lower id is the
parent and the other a leaf. -/
def parentCandidates (blocks : List Block) (b : Block) : List Block :=
  blocks.filter (fun a =>
    decide (a.id ≠ b.id) && containsTol hierTol a.bbox b.bbox &&
      !(containsTol hierTol b.bbox a.bbox && decide (b.id < a.id)))

/-- The §4.3 tightest-box rule: smaller area wins; equal areas fall back to
the lower id (deterministic tie-break). -/
def betterParent (a b : Block) : Block :=
  if bboxArea a.bbox < bboxArea b.bbox then a
  else if bboxArea b.bbox < bboxArea a.bbox then b
  else if a.id ≤ b.id then a else b

def chooseParent : List Block → Option Block
  | [] => none
  | a :: as => some ((chooseParent as).elim a (betterParent a))

/-- Modelled from the spec: the direct parent of a block — the containment
candidate with the smallest area (§4.3); `none` for roots. -/
def parentOf (blocks : List Block) (b : Block) : Option Nat :=
  (chooseParent (parentCandidates blocks b)).map (·.id)

def findBlock (blocks : List Block) (i : Nat) : Option Block :=
  blocks.find? (fun c => c.id == i)

/-- Modelled from the spec: depth = distance to a root along parent links
(§4.3), with the block count as fuel (0 beyond it; the spec's invariants
make the relation well-founded for geometric inputs). -/
def depthOfAux (blocks : List Block) : Nat → Block → Nat
  | 0, _ => 0
  | Nat.succ fuel, b =>
    match parentOf blocks b with
    | none => 0
    | some pid =>
      match findBlock blocks pid with
      | none => 0
      | some p => depthOfAux blocks fuel p + 1

def depthOf (blocks : List Block) (b : Block) : Nat :=
  depthOfAux blocks blocks.length b

def childrenOf (blocks : List Block) (b : Block) : List Nat :=
  (blocks.filter (fun c => parentOf blocks c == some b.id)).map (·.id)

/-- Modelled from the spec: `BuildTree(blocks)` (§4.3): one HierarchyNode
per block plus the statistics (total blocks, root count, max depth, mean
children over non-leaf nodes, blocks per level). -/
def buildTree (blocks : List Block) : List HierarchyNode × HierarchyStats :=
  let nodes := blocks.map (fun b =>
    { blockId := b.id, parentId := parentOf blocks b
      children := childrenOf blocks b, depth := depthOf blocks b })
  let maxDepth := (nodes.map (·.depth)).foldr max 0
  let nonLeaf := nodes.filter (fun n => !n.children.isEmpty)
  let avgChildren : ℚ :=
    if nonLeaf.length = 0 then 0
    else ((nonLeaf.map (fun n => (n.children.length : ℚ))).sum) / (nonLeaf.length : ℚ)
  let byLevel :=
    if nodes.isEmpty then []
    else (List.range (maxDepth + 1)).map
      (fun d => (d, (nodes.filter (fun n => n.depth == d)).length))
  (nodes,
   { totalBlocks := blocks.length
     rootBlocks := (nodes.filter (fun n => n.parentId.isNone)).length
     maxDepth := maxDepth
     avgChildren := avgChildren
     blocksByLevel := byLevel })

/-- Modelled from the spec: the §6 page result object (sections and the
summary are empty unless create_sections; hierarchical_blocks is present
iff build_hierarchy_tree; hierarchy_statistics is always present). -/
structure PageOut where
  blocks : List Block
  totalBlocks : Nat
  averageConfidence : ℚ
  sections : List SectionOut
  sectionSummary : List (String × Nat)
  hierarchicalBlocks : List HierarchyNode
  hierarchyStatistics : HierarchyStats
deriving DecidableEq, Repr

/-- Modelled from the spec: the merge_blocks=false pass-through (§6): one
Block per Detection with text, confidence and bbox unchanged, ids
sequential. -/
def passThrough (dets : List Det) : List Block :=
  (withIdx 0 dets).map (fun p =>
    { id := p.1, text := p.2.text, confidence := p.2.confidence
      bbox := p.2.bbox, blockType := "paragraph" })

/-- Modelled from the spec: the page pipeline (§2, §6): BlockMerger (or the
pass-through when merge_blocks=false), then SectionClassifier iff
create_sections, then HierarchyBuilder for the statistics. -/
def runPipeline (dets : List Det) (opts : OCROptions) : PageOut :=
  let blocks0 := if opts.mergeBlocks then Merge dets opts.mergeThreshold else passThrough dets
  let cls := if opts.createSections then classify blocks0 (pageHeightOf blocks0)
    else (blocks0, [], [])
  let tree := buildTree cls.1
  { blocks := cls.1
    totalBlocks := cls.1.length
    averageConfidence :=
      if cls.1.length = 0 then 0
      else ((cls.1.map (·.confidence)).sum) / (cls.1.length : ℚ)
    sections := cls.2.1
    sectionSummary := cls.2.2
    hierarchicalBlocks := if opts.buildHierarchyTree then tree.1 else []
    hierarchyStatistics := tree.2 }

/-- C4: zero detections give a zero-valued result, not an error: in the
spec-modelled pipeline `total_blocks = 0`, `average_confidence = 0`, an
empty block list, empty sections and `hierarchy_statistics.max_depth = 0`
for every option combination; and in the Go `ExtractBlocks.Execute` an
empty box list yields `TotalBlocks = 0`, `AverageConf = 0` and no blocks. -/
theorem C4_empty_input_zero_result (opts : OCROptions) :
    (runPipeline [] opts).totalBlocks = 0 ∧
    (runPipeline [] opts).averageConfidence = 0 ∧
    (runPipeline [] opts).blocks = [] ∧
    (runPipeline [] opts).sections = [] ∧
    (runPipeline [] opts).hierarchyStatistics.maxDepth = 0 ∧
    (extractBlocks []).totalBlocks = 0 ∧
    (extractBlocks []).averageConf = 0 ∧
    (extractBlocks []).blocks = [] := by
  obtain ⟨mb, mt, cs, bh⟩ := opts
  cases mb <;> cases cs <;> cases bh <;>
    exact ⟨rfl, rfl, rfl, rfl, rfl, rfl, rfl, rfl⟩

theorem passThrough_proj (dets : List Det) :
    (passThrough dets).map (fun b => (b.text, b.confidence, b.bbox))
      = dets.map (fun d => (d.text, d.confidence, d.bbox)) := by
  unfold passThrough
  rw [List.map_map]
  exact withIdx_map_snd (fun d : Det => (d.text, d.confidence, d.bbox)) 0 dets

theorem passThrough_length (dets : List Det) :
    (passThrough dets).length = dets.length := by
  unfold passThrough
  rw [List.length_map, withIdx_length]

theorem classify_proj (blocks : List Block) (h : Int) :
    (classify blocks h).1.map (fun b => (b.text, b.confidence, b.bbox))
      = blocks.map (fun b => (b.text, b.confidence, b.bbox)) := by
  show (blocks.map _).map _ = _
  rw [List.map_map]
  rfl

theorem classify_length (blocks : List Block) (h : Int) :
    (classify blocks h).1.length = blocks.length := by
  show (blocks.map _).length = _
  rw [List.length_map]

/-- C5: when merge_blocks is false the merger is skipped: the pipeline's
result has exactly one Block per Detection, in order, with that detection's
text, confidence and bbox unchanged. -/
theorem C5_merge_disabled_passthrough (dets : List Det) (opts : OCROptions)
    (h : opts.mergeBlocks = false) :
    (runPipeline dets opts).blocks.map (fun b => (b.text, b.confidence, b.bbox))
      = dets.map (fun d => (d.text, d.confidence, d.bbox)) ∧
    (runPipeline dets opts).totalBlocks = dets.length := by
  obtain ⟨mb, mt, cs, bh⟩ := opts
  have hmb : mb = false := h
  subst hmb
  cases cs
  · exact ⟨passThrough_proj dets, passThrough_length dets⟩
  · constructor
    · show (classify (passThrough dets) _).1.map _ = _
      rw [classify_proj, passThrough_proj]
    · show (classify (passThrough dets) _).1.length = _
      rw [classify_length, passThrough_length]

/-- The option record of a caller that disables merging and asks for
sections. -/
def noMergeOpts : OCROptions :=
  { mergeBlocks := false, mergeThreshold := 30
    createSections := true, buildHierarchyTree := false }

/-- Witness for C5: the pass-through on scenario A's two detections. -/
theorem C5_witness :
    (runPipeline scenarioA noMergeOpts).blocks.map (fun b => (b.text, b.confidence, b.bbox))
      = scenarioA.map (fun d => (d.text, d.confidence, d.bbox)) ∧
    (runPipeline scenarioA noMergeOpts).totalBlocks = scenarioA.length :=
  C5_merge_disabled_passthrough scenarioA noMergeOpts rfl

/-- C7: the page pipeline is deterministic — it is a pure function of the
detections and the configuration, so identical inputs give identical
outputs; likewise for the Go single-image and PDF paths from the engine's
boxes onward. -/
theorem C7_pipeline_deterministic (d1 d2 : List Det) (o1 o2 : OCROptions)
    (b1 b2 : List Box) (p1 p2 : List (List Box))
    (hd : d1 = d2) (ho : o1 = o2) (hb : b1 = b2) (hp : p1 = p2) :
    runPipeline d1 o1 = runPipeline d2 o2 ∧
    extractBlocks b1 = extractBlocks b2 ∧
    processPDF p1 = processPDF p2 := by
  subst hd; subst ho; subst hb; subst hp
  exact ⟨rfl, rfl, rfl⟩

/-- Witness for C7: two runs on the same concrete inputs coincide. -/
theorem C7_witness :
    runPipeline scenarioA goHandlerOptions = runPipeline scenarioA goHandlerOptions ∧
    extractBlocks [] = extractBlocks [] ∧
    processPDF pdfSample = processPDF pdfSample :=
  C7_pipeline_deterministic scenarioA scenarioA goHandlerOptions goHandlerOptions
    [] [] pdfSample pdfSample rfl rfl rfl rfl

end OcrProof
